import Mathlib

/-!
Verification of the slot-filling engine (`slots.py`).

A shallow embedding of the slot inference engine of the sberdemo repository:
the dictionary / classifier / compositional slot hierarchy, the fuzzy
resolution algorithm and the tabular schema loader, together with theorems
settling the specification claims.

Python strings are modelled as `List Char` so that every operation is a
structural recursion the kernel can evaluate.  Python `dict`s (which preserve
insertion order) are modelled as association lists with unique keys, where
assignment replaces in place and otherwise appends.  Exceptions are modelled
with `Except`: each `raise` site of the source gets its own constructor of
`Err`.  The external fuzzy matcher (`fuzz.partial_ratio`, consumed by the
source as an opaque capability producing a similarity score in [0, 100]) is a
parameter of type `Score`; the trained classifier pipeline is a parameter of
type `Model`; the preprocessing pipeline is a parameter `feed`.
-/

set_option autoImplicit false

namespace Sber

/-- Python strings, modelled as their character sequences. -/
abbrev Str := List Char

/-- A token produced by the preprocessing pipeline.  The source only ever
reads the `_text` surface string of a token (`w['_text']`). -/
structure Token where
  _text : Str
deriving DecidableEq

/-- Python whitespace test for the characters relevant to `str.split()` and
`str.strip()`. -/
def isWs (c : Char) : Bool :=
  c == ' ' || c == '\t' || c == '\n' || c == '\r' || c == '\x0b' || c == '\x0c'

/-- Splitting a string at every character satisfying `p`, keeping empty
pieces: the behaviour of Python `str.split(sep)` for a one-character `sep`
(with `p` matching exactly `sep`).  `"".split(sep) == ['']` holds: the result
is never the empty list. -/
def splitPred (p : Char → Bool) : Str → List Str
  | [] => [[]]
  | c :: rest =>
    if p c then [] :: splitPred p rest
    else
      match splitPred p rest with
      | [] => [[c]]
      | g :: gs => (c :: g) :: gs

/-- Python `str.split()` with no argument: split on whitespace runs and drop
the empty pieces. -/
def splitWs (s : Str) : List Str :=
  (splitPred isWs s).filter (fun g => !g.isEmpty)

/-- Python `str.strip()`. -/
def strip (s : Str) : Str :=
  ((s.dropWhile isWs).reverse.dropWhile isWs).reverse

/-- Python `s.replace(', ', ',')` as applied to synonym cells: replace every
non-overlapping occurrence, scanning left to right. -/
def replaceCommaSpace : Str → Str
  | ',' :: ' ' :: rest => ',' :: replaceCommaSpace rest
  | c :: rest => c :: replaceCommaSpace rest
  | [] => []

/-- The chained `.replace('“', '').replace('”', '').replace('"', '')` of the
loader: all three delete every occurrence of a single character. -/
def removeQuotes (s : Str) : Str :=
  s.filter (fun c => !(c == '“' || c == '”' || c == '"'))

/-- Synonym-cell preprocessing of the loader:
`cell.replace(', ', ',').replace('“', '').replace('”', '').replace('"', '').split(',')`. -/
def splitSyns (s : Str) : List Str :=
  splitPred (fun c => c == ',') (removeQuotes (replaceCommaSpace s))

/-- Python `' '.join(w['_text'] for w in text)`: the probe string built from a
tokenized text. -/
def joinTokens (text : List Token) : Str :=
  List.intercalate [' '] (text.map Token._text)

/-- First-match association-list lookup: `d.get(k)` (keys produced by
`dictInsert` are unique, so first match is the match). -/
def lookupD (d : List (Str × Str)) (k : Str) : Option Str :=
  (d.find? (fun p => p.1 == k)).map (fun p => p.2)

/-- Python `d[k] = v` on an insertion-ordered dict: if the key is present its
value is replaced in place, otherwise the pair is appended. -/
def dictInsert (d : List (Str × Str)) (k v : Str) : List (Str × Str) :=
  if d.any (fun p => p.1 == k) then d.map (fun p => if p.1 == k then (k, v) else p)
  else d ++ [(k, v)]

/-- The key sequence of a dict, in insertion order. -/
def dictKeys (d : List (Str × Str)) : List Str := d.map (fun p => p.1)

/-- The external fuzzy matcher, consumed and not reimplemented: given a
vocabulary key and the probe string it returns a similarity score in
[0, 100]. -/
abbrev Score := Str → Str → Nat

/-- A trained classifier pipeline, consumed via its predict contract: a
boolean label for a tokenized text. -/
abbrev Model := List Token → Bool

/-- Every `raise` site of the source gets a constructor. -/
inductive Err where
  /-- `row[0]` or `row[1]` on a too-short row, or `values_order[0]` on an
  empty list. -/
  | indexError
  /-- unpacking `slot_name, slot_class, *args` from fewer than two pieces. -/
  | valueError
  /-- `getattr(sys.modules[__name__], slot_class)` with an unknown name. -/
  | attributeError (name : Str)
  /-- `slotmap[child_id]` with a missing child id. -/
  | keyError (name : Str)
  /-- the loader's `assert not intersection` on a value row. -/
  | assertionError
  /-- `raise Exception()` on a value row with more than three columns. -/
  | exceptionRaised
  /-- `NotImplementedError("No model specified!")`. -/
  | noModelError
  /-- `Exception("Model path: '...' doesnt exist")` in `load_model`. -/
  | modelPathMissing (path : Str)
  /-- `Exception("... does not exist")` in `read_slots_serialized`. -/
  | modelFileMissing (path : Str)
deriving DecidableEq

/-- `DictionarySlot` of the source.  The constructor receives `values_order`
and `prev_created_slots` but the base class stores neither; `threshold` is
hardcoded to 84 by `__init__` (the structure default). -/
structure DictionarySlot where
  id : Str
  ask_sentence : Str
  gen_dict : List (Str × Str)
  nongen_dict : List (Str × Str)
  threshold : Nat := 84

/-- The scan loop of `DictionarySlot._infer`: iterate the keys, keeping the
first key whose score strictly exceeds the running best (initially 0 with no
match). -/
def inferLoop (score : Score) (probe : Str) :
    List Str → Nat → Option Str → Nat × Option Str
  | [], best_score, best_match => (best_score, best_match)
  | v :: rest, best_score, best_match =>
    if best_score < score v probe then inferLoop score probe rest (score v probe) (some v)
    else inferLoop score probe rest best_score best_match

/-- `DictionarySlot._normal_value` over explicit dicts:
`gen.get(text, nongen.get(text, ''))`. -/
def normalValue (gen nongen : List (Str × Str)) (text : Str) : Str :=
  match lookupD gen text with
  | some v => v
  | none => (lookupD nongen text).getD []

/-- `DictionarySlot._infer` over explicit dicts: join the tokens into a probe
string, scan the keys of `gen` then of `nongen` with `inferLoop`, and if the
best score reaches `threshold` return the normalised best match (a `None`
best match normalises to the empty string), else `None`. -/
def inferDict (score : Score) (gen nongen : List (Str × Str)) (threshold : Nat)
    (text : List Token) : Option Str :=
  let str_text := joinTokens text
  let r := inferLoop score str_text (dictKeys gen ++ dictKeys nongen) 0 none
  if threshold ≤ r.1 then
    some (match r.2 with
          | some v => normalValue gen nongen v
          | none => [])
  else none

/-- `DictionarySlot._infer`. -/
def DictionarySlot._infer (score : Score) (s : DictionarySlot) (text : List Token) :
    Option Str :=
  inferDict score s.gen_dict s.nongen_dict s.threshold text

/-- `DictionarySlot._normal_value`. -/
def DictionarySlot._normal_value (s : DictionarySlot) (text : Str) : Str :=
  normalValue s.gen_dict s.nongen_dict text

/-- `DictionarySlot.infer_from_compositional_request`: delegates to `_infer`
and cannot raise. -/
def DictionarySlot.infer_from_compositional_request (score : Score)
    (s : DictionarySlot) (text : List Token) : Except Err (Option Str) :=
  .ok (s._infer score text)

/-- `DictionarySlot.infer_from_single_slot`: delegates to `_infer` and cannot
raise. -/
def DictionarySlot.infer_from_single_slot (score : Score) (s : DictionarySlot)
    (text : List Token) : Except Err (Option Str) :=
  .ok (s._infer score text)

/-- `ClassifierSlot` of the source: extends the dictionary slot with the
distinguished true label (`self.true = values_order[0]`, cached at
construction) and an optional model (`self.model = None` until loaded or
trained). -/
structure ClassifierSlot extends DictionarySlot where
  true_label : Str
  model : Option Model := none

/-- `ClassifierSlot.infer_from_compositional_request`: raises
`NotImplementedError("No model specified!")` when no model is attached,
otherwise predicts a boolean label and returns the true label on a positive
prediction, `None` otherwise. -/
def ClassifierSlot.infer_from_compositional_request (c : ClassifierSlot)
    (text : List Token) : Except Err (Option Str) :=
  match c.model with
  | none => .error .noModelError
  | some m => .ok (if m text then some c.true_label else none)

/-- `ClassifierSlot.infer_from_compositional_batch`: same model guard, then
one predicted label per input text. -/
def ClassifierSlot.infer_from_compositional_batch (c : ClassifierSlot)
    (list_texts : List (List Token)) : Except Err (List Bool) :=
  match c.model with
  | none => .error .noModelError
  | some m => .ok (list_texts.map m)

/-- `ClassifierSlot` does not override `infer_from_single_slot`: the method
inherited from `DictionarySlot` runs, performing dictionary fuzzy resolution
with no model guard. -/
def ClassifierSlot.infer_from_single_slot (score : Score) (c : ClassifierSlot)
    (text : List Token) : Except Err (Option Str) :=
  .ok (c.toDictionarySlot._infer score text)

/-- A child of a `CompositionalSlot`, as far as compositional resolution is
concerned: the composite only ever invokes the two inference entry points of
a child. -/
structure ChildSlot where
  infer_from_compositional_request : List Token → Except Err (Option Str)
  infer_from_single_slot : List Token → Except Err (Option Str)

/-- `CompositionalSlot` of the source: the base fields plus the ordered child
list built by `__init__` from the registry of previously created slots. -/
structure CompositionalSlot extends DictionarySlot where
  children : List ChildSlot

/-- The loop of `CompositionalSlot.infer_from_compositional_request`:
`for s in children: rv = s.infer_from_compositional_request(text); if rv is
not None: return rv` — falling through returns `None`; a child exception
propagates. -/
def inferChildrenComp : List ChildSlot → List Token → Except Err (Option Str)
  | [], _ => .ok none
  | c :: rest, text => do
    let rv ← c.infer_from_compositional_request text
    match rv with
    | some v => pure (some v)
    | none => inferChildrenComp rest text

/-- The loop of `CompositionalSlot.infer_from_single_slot`: identical shape,
calling the single-slot entry point of each child. -/
def inferChildrenSingle : List ChildSlot → List Token → Except Err (Option Str)
  | [], _ => .ok none
  | c :: rest, text => do
    let rv ← c.infer_from_single_slot text
    match rv with
    | some v => pure (some v)
    | none => inferChildrenSingle rest text

/-- `CompositionalSlot.infer_from_compositional_request`. -/
def CompositionalSlot.infer_from_compositional_request (s : CompositionalSlot)
    (text : List Token) : Except Err (Option Str) :=
  inferChildrenComp s.children text

/-- `CompositionalSlot.infer_from_single_slot`. -/
def CompositionalSlot.infer_from_single_slot (s : CompositionalSlot)
    (text : List Token) : Except Err (Option Str) :=
  inferChildrenSingle s.children text

/-- The slot classes defined in the module, as resolvable by
`getattr(sys.modules[__name__], slot_class)`. -/
inductive SlotClass where
  | DictionarySlot
  | CurrencySlot
  | ClassifierSlot
  | CompositionalSlot
  | TomitaSlot
  | GeoSlot
deriving DecidableEq

/-- A slot as produced by the schema loader: the constructor arguments it
accumulated (including `values_order`, which the loader passes as
`normal_names_order`), the class tag, the cached true label of a classifier
slot (`values_order[0]`), the attached model (always `None` at parse time)
and the child list of a compositional slot. -/
inductive Slot where
  | mk (id : Str) (ask_sentence : Str) (gen_dict nongen_dict : List (Str × Str))
      (values_order : List Str) (threshold : Nat) (cls : SlotClass)
      (true_label : Option Str) (model : Option Model) (children : List Slot)

def Slot.id : Slot → Str
  | .mk i _ _ _ _ _ _ _ _ _ => i

def Slot.ask_sentence : Slot → Str
  | .mk _ a _ _ _ _ _ _ _ _ => a

def Slot.gen_dict : Slot → List (Str × Str)
  | .mk _ _ g _ _ _ _ _ _ _ => g

def Slot.nongen_dict : Slot → List (Str × Str)
  | .mk _ _ _ ng _ _ _ _ _ _ => ng

def Slot.values_order : Slot → List Str
  | .mk _ _ _ _ vo _ _ _ _ _ => vo

def Slot.threshold : Slot → Nat
  | .mk _ _ _ _ _ th _ _ _ _ => th

def Slot.cls : Slot → SlotClass
  | .mk _ _ _ _ _ _ c _ _ _ => c

def Slot.true_label : Slot → Option Str
  | .mk _ _ _ _ _ _ _ t _ _ => t

def Slot.model : Slot → Option Model
  | .mk _ _ _ _ _ _ _ _ m _ => m

def Slot.children : Slot → List Slot
  | .mk _ _ _ _ _ _ _ _ _ ch => ch

/-- Attaching a model to a loader-produced slot (the only mutation the source
performs after construction). -/
def Slot.setModel : Slot → Option Model → Slot
  | .mk i a g ng vo th c t _ ch, m => .mk i a g ng vo th c t m ch

/-- The base resolution `_infer`, applied to a loader-produced slot (every
slot class except the external-NER one inherits it unchanged). -/
def Slot._infer (score : Score) (s : Slot) (text : List Token) : Option Str :=
  inferDict score s.gen_dict s.nongen_dict s.threshold text

/-- `CompositionalSlot.__init__`:
`slotmap = {s.id: s for s in prev_created_slots}` (a dict comprehension, so a
duplicated id keeps the LAST slot) and
`self.children = [slotmap[n] for n in args]` — a child id absent from the
registry raises `KeyError`. -/
def compositionalInit (prev_created_slots : List Slot) (args : List Str) :
    Except Err (List Slot) :=
  args.mapM (fun a =>
    match prev_created_slots.reverse.find? (fun s => s.id == a) with
    | some s => .ok s
    | none => .error (.keyError a))

/-- The mutable locals of `read_slots_from_tsv`, threaded through the row
loop.  `header_args` mirrors the local `args` unpacked from the header token:
the source binds it but never forwards it to the constructor call.  After a
block is constructed only `slot_name` and the two dicts are reset;
`slot_class`, `info_question` and `normal_names_order` keep stale values
until the next header overwrites them. -/
structure LoaderState where
  slot_name : Option Str
  slot_class : Str
  header_args : List Str
  info_question : Str
  generative_slot_values : List (Str × Str)
  nongenerative_slot_values : List (Str × Str)
  normal_names_order : List Str
  result_slots : List Slot

/-- The state at loop entry (`slot_name = None`, empty dicts, no slots). -/
def initState : LoaderState :=
  { slot_name := none, slot_class := [], header_args := [], info_question := []
    generative_slot_values := [], nongenerative_slot_values := []
    normal_names_order := [], result_slots := [] }

/-- The loader's local helper
`pipe(text) = ' '.join(w['_text'] for w in pipeline.feed(text))`. -/
def pipe (feed : Str → List Token) (text : Str) : Str :=
  joinTokens (feed text)

/-- `getattr(sys.modules[__name__], slot_class)` restricted to the slot
classes the module defines; any other name fails (no other module attribute
is callable with the loader's six arguments). -/
def classOfName (n : Str) : Option SlotClass :=
  if n = ("DictionarySlot".data) then some .DictionarySlot
  else if n = ("CurrencySlot".data) then some .CurrencySlot
  else if n = ("ClassifierSlot".data) then some .ClassifierSlot
  else if n = ("CompositionalSlot".data) then some .CompositionalSlot
  else if n = ("TomitaSlot".data) then some .TomitaSlot
  else if n = ("GeoSlot".data) then some .GeoSlot
  else none

/-- The loader's construction call
`SlotClass(slot_name, info_question, generative_slot_values,
nongenerative_slot_values, normal_names_order, result_slots)`.

Note the six positional arguments: the header's extra pieces
(`st.header_args`) are NOT forwarded, so `*args` is always empty in the
constructors — in particular `CompositionalSlot.__init__` always receives an
empty `args` and builds an empty child list.  `ClassifierSlot.__init__` reads
`values_order[0]`, an `IndexError` when the block had no value rows.  Every
base constructor sets `threshold = 84`. -/
def constructSlot (st : LoaderState) : Except Err Slot :=
  match classOfName st.slot_class with
  | none => .error (.attributeError st.slot_class)
  | some cls =>
    let name := st.slot_name.getD []
    match cls with
    | .ClassifierSlot =>
      match st.normal_names_order with
      | [] => .error .indexError
      | t :: _ =>
        .ok (Slot.mk name st.info_question st.generative_slot_values
          st.nongenerative_slot_values st.normal_names_order 84 cls (some t) none [])
    | .CompositionalSlot =>
      (compositionalInit st.result_slots []).map (fun ch =>
        Slot.mk name st.info_question st.generative_slot_values
          st.nongenerative_slot_values st.normal_names_order 84 cls none none ch)
    | _ =>
      .ok (Slot.mk name st.info_question st.generative_slot_values
        st.nongenerative_slot_values st.normal_names_order 84 cls none none [])

/-- A value row of a block (1 to 3 columns already destructured into
`normal_name`, `generative_syns`, `nongenerative_syns`, empty strings for the
missing columns):
normalise the canonical name through the pipeline, append it to
`normal_names_order`, split the synonym cells (an empty cell gives no
synonyms), assert that nonempty generative and nongenerative synonym lists of
THIS row do not intersect, then insert `pipe(syn) -> normal_name` for the
nongenerative synonyms, `normal_name -> normal_name`, and
`pipe(syn) -> normal_name` for the generative synonyms. -/
def valueRow (feed : Str → List Token) (st : LoaderState) (n g ng : Str) :
    Except Err LoaderState :=
  let normal_name := pipe feed n
  let generative_syns := if g ≠ [] then splitSyns g else []
  let nongenerative_syns := if ng ≠ [] then splitSyns ng else []
  if nongenerative_syns ≠ [] ∧ generative_syns ≠ [] ∧
      nongenerative_syns.any (fun s => generative_syns.contains s) then
    .error .assertionError
  else
    .ok { st with
      normal_names_order := st.normal_names_order ++ [normal_name]
      nongenerative_slot_values := nongenerative_syns.foldl
        (fun d s => dictInsert d (pipe feed s) normal_name) st.nongenerative_slot_values
      generative_slot_values := generative_syns.foldl
        (fun d s => dictInsert d (pipe feed s) normal_name)
        (dictInsert st.generative_slot_values normal_name normal_name) }

/-- One iteration of the row loop of `read_slots_from_tsv`:
* `slot_name is None`: a header row — `slot_name, slot_class, *args =
  row[0].split()[0].split('.')` (an `IndexError` on a missing or blank first
  cell, a `ValueError` if the dotted token has fewer than two pieces),
  `info_question = row[1].strip()` (an `IndexError` on a one-cell row), and
  `normal_names_order = []`;
* otherwise, if `''.join(row)` is nonempty: a value row of 1 to 3 columns
  (`raise Exception()` on more);
* otherwise (a blank row): construct the slot from the accumulated state,
  append it, and reset `slot_name` and the two dicts. -/
def rowStep (feed : Str → List Token) (st : LoaderState) (row : List Str) :
    Except Err LoaderState :=
  match st.slot_name with
  | none =>
    match row with
    | [] => .error .indexError
    | cell0 :: rest =>
      match splitWs cell0 with
      | [] => .error .indexError
      | w :: _ =>
        match splitPred (fun c => c == '.') w with
        | [] => .error .valueError
        | [_] => .error .valueError
        | n :: c :: args =>
          match rest with
          | [] => .error .indexError
          | q :: _ =>
            .ok { st with slot_name := some n, slot_class := c, header_args := args
                          info_question := strip q, normal_names_order := [] }
  | some _ =>
    if row.flatten = [] then
      (constructSlot st).map (fun slot =>
        { st with result_slots := st.result_slots ++ [slot]
                  slot_name := none
                  generative_slot_values := []
                  nongenerative_slot_values := [] })
    else
      match row with
      | [n] => valueRow feed st n [] []
      | [n, g] => valueRow feed st n g []
      | [n, g, ng] => valueRow feed st n g ng
      | _ => .error .exceptionRaised

/-- `read_slots_from_tsv`, over the parsed csv rows: fold the row loop over
the rows, then flush a trailing unterminated block — but only `if slot_name:`
is truthy, i.e. not `None` AND a nonempty string. -/
def read_slots_from_tsv (feed : Str → List Token) (rows : List (List Str)) :
    Except Err (List Slot) := do
  let st ← rows.foldlM (rowStep feed) initState
  match st.slot_name with
  | some n =>
    if n ≠ [] then do
      let slot ← constructSlot st
      pure (st.result_slots ++ [slot])
    else pure st.result_slots
  | none => pure st.result_slots

/-- `os.path.join(folder, s.id + '.model')`. -/
def modelPath (folder : Str) (slot_id : Str) : Str :=
  folder ++ ('/' :: (slot_id ++ (".model".data)))

/-- `ClassifierSlot.load_model` on a loader-produced slot: raise
`Exception("Model path: '...' doesnt exist")` when the path does not exist,
else attach `joblib.load(model_path)` (the artifact store `loadArtifact` and
the file-existence test `ex` are the external filesystem). -/
def Slot.load_model (ex : Str → Bool) (loadArtifact : Str → Model) (s : Slot)
    (model_path : Str) : Except Err Slot :=
  if ex model_path then .ok (s.setModel (some (loadArtifact model_path)))
  else .error (.modelPathMissing model_path)

/-- The attachment loop of `read_slots_serialized`: for every slot, build
`<folder>/<id>.model`; for a classifier slot, raise
`Exception("... does not exist")` if the artifact is absent, else
`load_model` it; other slots pass through. -/
def attachModels (ex : Str → Bool) (loadArtifact : Str → Model) (folder : Str) :
    List Slot → Except Err (List Slot)
  | [] => .ok []
  | s :: rest =>
    let name := modelPath folder s.id
    if s.cls = SlotClass.ClassifierSlot then
      if ex name then do
        let s2 ← s.load_model ex loadArtifact name
        let rest2 ← attachModels ex loadArtifact folder rest
        pure (s2 :: rest2)
      else .error (.modelFileMissing name)
    else do
      let rest2 ← attachModels ex loadArtifact folder rest
      pure (s :: rest2)

/-- `read_slots_serialized`: parse the schema, then load the saved models for
every classifier slot. -/
def read_slots_serialized (ex : Str → Bool) (loadArtifact : Str → Model)
    (feed : Str → List Token) (rows : List (List Str)) (folder : Str) :
    Except Err (List Slot) := do
  let slots ← read_slots_from_tsv feed rows
  attachModels ex loadArtifact folder slots

/-- The base resolution algorithm as the specification words it (claim C3):
score every key in the union of the generative and nongenerative keys
(generative first), take the maximum score, resolve ties first-seen-wins,
and if the maximum reaches the threshold return the canonical value of the
winning key (generative lookup before nongenerative), else `None`. -/
def inferClaim (score : Score) (s : DictionarySlot) (text : List Token) :
    Option Str :=
  let probe := joinTokens text
  let keys := dictKeys s.gen_dict ++ dictKeys s.nongen_dict
  let m := keys.foldl (fun acc v => max acc (score v probe)) 0
  if s.threshold ≤ m then
    (keys.find? (fun v => score v probe == m)).map s._normal_value
  else none

/-- Is `a` a contiguous substring of `b`? -/
def isSubstr (a : Str) : Str → Bool
  | [] => a.isEmpty
  | c :: bt => a.isPrefixOf (c :: bt) || isSubstr a bt

/-- Modelled from the spec: a conforming instance of the external Fuzzy
Matcher capability ("given two strings, returns a partial-similarity score in
[0,100]").  It scores 100 whenever one string is a contiguous substring of
the other — the defining behaviour of PARTIAL similarity, under which a
vocabulary key containing the probe scores a full 100 — scores 0 when either
argument is empty (the library's empty-string guard), and 0 otherwise. -/
def substrScore : Score := fun a b =>
  if a.isEmpty || b.isEmpty then 0
  else if isSubstr a b || isSubstr b a then 100 else 0

/-- A trivially conforming matcher (every score 0), used to instantiate
universally quantified theorems. -/
def zeroScore : Score := fun _ _ => 0

/-- A one-token pipeline: feeding a string yields a single token carrying it,
so `pipe feedOne` is the identity. -/
def feedOne : Str → List Token := fun s => [⟨s⟩]

/-- Concrete dictionary slot for claim C5: the key "ab" (canonical value "1")
is scanned before the key "b" (canonical value "2"). -/
def c5slot : DictionarySlot :=
  { id := [], ask_sentence := []
    gen_dict := [(['a', 'b'], ['1']), (['b'], ['2'])], nongen_dict := [] }

/-- Concrete classifier slot with no model attached (claim C1). -/
def c1slot : ClassifierSlot :=
  { id := ['c'], ask_sentence := [], gen_dict := [], nongen_dict := []
    true_label := ['y'] }

/-- A child slot that always resolves to "a" (claim C6). -/
def childA : ChildSlot :=
  { infer_from_compositional_request := fun _ => .ok (some ['a'])
    infer_from_single_slot := fun _ => .ok (some ['a']) }

/-- A child slot that always resolves to "b" (claim C6). -/
def childB : ChildSlot :=
  { infer_from_compositional_request := fun _ => .ok (some ['b'])
    infer_from_single_slot := fun _ => .ok (some ['b']) }

/-- Schema with a single compositional block whose header names the child id
"missing", which no earlier block defines (claim C2). -/
def c2rows : List (List Str) :=
  [[("comp.CompositionalSlot.missing".data), ("q".data)]]

/-- Schema whose one value row assigns the surface form "A" as a
nongenerative synonym of the canonical name "A" (claim C4): the canonical
name lands in the generative dict, the synonym in the nongenerative dict,
and the per-row assert does not fire because the generative synonym cell is
empty. -/
def c4rows : List (List Str) :=
  [[("s.DictionarySlot".data), ("q".data)], [("A".data), [], ("A".data)]]

/-- Schema whose trailing block is unterminated and whose header token
".DictionarySlot" yields the empty slot id (claim C9): Python
`if slot_name:` is falsy on the empty string. -/
def c9rows : List (List Str) :=
  [[(".DictionarySlot".data), ("q".data)]]

/-- An ordinary unterminated schema for the amended claim C9 witness. -/
def c9wrows : List (List Str) :=
  [[("s.DictionarySlot".data), ("q".data)], [("A".data)]]

/-- Schema for claim C10: the first row makes the canonical value "A" map to
itself in the generative dict, then the second row's generative synonym "A"
remaps the key "A" to the canonical value "B". -/
def c10rows : List (List Str) :=
  [[("s.DictionarySlot".data), ("q".data)], [("A".data)], [("B".data), ("A".data)]]

/-- The slot `read_slots_from_tsv feedOne c10rows` produces. -/
def c10slot : Slot :=
  Slot.mk ['s'] ['q'] [(['A'], ['B']), (['B'], ['B'])] [] [['A'], ['B']] 84
    SlotClass.DictionarySlot none none []

/-- The slot `read_slots_from_tsv feedOne c9wrows` produces. -/
def c9wslot : Slot :=
  Slot.mk ['s'] ['q'] [(['A'], ['A'])] [] [['A']] 84
    SlotClass.DictionarySlot none none []

/-- Concrete dictionary slot for the amended claim C5 witness: a single key
"b" with canonical value "2". -/
def c5wslot : DictionarySlot :=
  { id := [], ask_sentence := [], gen_dict := [(['b'], ['2'])], nongen_dict := [] }

/-- A child whose two entry points both return without raising on the given
text (claim C6 quantifies over failure-free children: a raising child
propagates its exception instead). -/
def childOk (c : ChildSlot) (text : List Token) : Prop :=
  (∃ r, c.infer_from_compositional_request text = .ok r) ∧
  (∃ r, c.infer_from_single_slot text = .ok r)

/-- The first non-null child resolution, in configured order, through the
compositional-request entry point — the value the specification says a
composite returns. -/
def firstChildComp (children : List ChildSlot) (text : List Token) : Option Str :=
  children.findSome? (fun c =>
    match c.infer_from_compositional_request text with
    | .ok (some v) => some v
    | _ => none)

/-- The first non-null child resolution through the single-slot entry
point. -/
def firstChildSingle (children : List ChildSlot) (text : List Token) : Option Str :=
  children.findSome? (fun c =>
    match c.infer_from_single_slot text with
    | .ok (some v) => some v
    | _ => none)

/-- Every value stored in the dict is one of the listed canonical values. -/
def dictValuesIn (d : List (Str × Str)) (order : List Str) : Prop :=
  ∀ kv ∈ d, kv.2 ∈ order

/-- The invariant loader-produced slots actually satisfy: both dicts map only
onto canonical values (elements of `values_order`), and the threshold is the
hardcoded 84. -/
def GoodSlot (s : Slot) : Prop :=
  dictValuesIn s.gen_dict s.values_order ∧
  dictValuesIn s.nongen_dict s.values_order ∧ s.threshold = 84

/-- The row-loop invariant of `read_slots_from_tsv` establishing `GoodSlot`:
between blocks (`slot_name = None`) the dicts are empty, within a block the
dicts map onto the accumulated `normal_names_order`, and every constructed
slot is good. -/
def LoaderInv (st : LoaderState) : Prop :=
  (st.slot_name = none →
    st.generative_slot_values = [] ∧ st.nongenerative_slot_values = []) ∧
  dictValuesIn st.generative_slot_values st.normal_names_order ∧
  dictValuesIn st.nongenerative_slot_values st.normal_names_order ∧
  ∀ s ∈ st.result_slots, GoodSlot s

end Sber


namespace Sber

/-! ## Helper lemmas on the scan loop -/

theorem le_foldl_max (score : Score) (probe : Str) :
    ∀ (l : List Str) (b : Nat), b ≤ l.foldl (fun acc v => max acc (score v probe)) b
  | [], _ => Nat.le_refl _
  | v :: rest, b =>
    Nat.le_trans (Nat.le_max_left b (score v probe))
      (le_foldl_max score probe rest (max b (score v probe)))

theorem foldl_max_le (score : Score) (probe : Str) (c : Nat) :
    ∀ (l : List Str) (b : Nat), (∀ v ∈ l, score v probe ≤ c) → b ≤ c →
      l.foldl (fun acc v => max acc (score v probe)) b ≤ c
  | [], _, _, hb => hb
  | v :: rest, b, h, hb =>
    foldl_max_le score probe c rest (max b (score v probe))
      (fun w hw => h w (List.mem_cons_of_mem _ hw))
      (Nat.max_le.mpr ⟨hb, h v (List.mem_cons_self _ _)⟩)

theorem foldl_max_ge (score : Score) (probe : Str) :
    ∀ (l : List Str) (b : Nat) (v : Str), v ∈ l →
      score v probe ≤ l.foldl (fun acc w => max acc (score w probe)) b := by
  intro l
  induction l with
  | nil => intro b v hv; cases hv
  | cons k rest ih =>
    intro b v hv
    rw [List.foldl_cons]
    rcases List.mem_cons.mp hv with rfl | hv
    · exact Nat.le_trans (Nat.le_max_right b (score v probe)) (le_foldl_max score probe rest _)
    · exact ih (max b (score k probe)) v hv

theorem foldl_max_attained (score : Score) (probe : Str) :
    ∀ (l : List Str) (b : Nat),
      l.foldl (fun acc v => max acc (score v probe)) b = b ∨
      ∃ v ∈ l, score v probe = l.foldl (fun acc v => max acc (score v probe)) b := by
  intro l
  induction l with
  | nil => intro b; exact Or.inl rfl
  | cons v rest ih =>
    intro b
    rw [List.foldl_cons]
    rcases ih (max b (score v probe)) with h | ⟨w, hw, hfw⟩
    · rw [h]
      rcases Nat.le_total (score v probe) b with hle | hle
      · exact Or.inl (Nat.max_eq_left hle)
      · exact Or.inr ⟨v, List.mem_cons_self _ _,
          ((Nat.max_eq_right hle).symm : score v probe = max b (score v probe))⟩
    · exact Or.inr ⟨w, List.mem_cons_of_mem _ hw, hfw⟩

/-- Characterisation of the `_infer` scan loop: its first component is the
running maximum of the scores, and its second component is the initial match
if no key improved on the initial best, else the first key attaining the
final maximum. -/
theorem inferLoop_eq (score : Score) (probe : Str) :
    ∀ (l : List Str) (b : Nat) (m : Option Str),
      inferLoop score probe l b m =
        (l.foldl (fun acc v => max acc (score v probe)) b,
         if l.foldl (fun acc v => max acc (score v probe)) b = b then m
         else l.find? (fun v => score v probe == l.foldl (fun acc v => max acc (score v probe)) b)) := by
  intro l
  induction l with
  | nil => intro b m; simp [inferLoop]
  | cons k rest ih =>
    intro b m
    rw [List.foldl_cons]
    by_cases h : b < score k probe
    · rw [inferLoop, if_pos h, ih, Nat.max_eq_right (Nat.le_of_lt h)]
      have hne : rest.foldl (fun acc v => max acc (score v probe)) (score k probe) ≠ b :=
        Nat.ne_of_gt (Nat.lt_of_lt_of_le h (le_foldl_max score probe rest _))
      rw [if_neg hne, List.find?_cons]
      by_cases h2 : rest.foldl (fun acc v => max acc (score v probe)) (score k probe) = score k probe
      · rw [if_pos h2]
        have : (score k probe == rest.foldl (fun acc v => max acc (score v probe)) (score k probe)) = true := by
          rw [h2]; exact beq_self_eq_true _
        rw [this]
      · rw [if_neg h2]
        have : (score k probe == rest.foldl (fun acc v => max acc (score v probe)) (score k probe)) = false := by
          rw [beq_eq_false_iff_ne]
          exact fun hc => h2 hc.symm
        rw [this]
    · rw [inferLoop, if_neg h, ih, Nat.max_eq_left (Nat.le_of_not_lt h)]
      by_cases h2 : rest.foldl (fun acc v => max acc (score v probe)) b = b
      · rw [if_pos h2, if_pos h2]
      · rw [if_neg h2, if_neg h2, List.find?_cons]
        have hlt : score k probe < rest.foldl (fun acc v => max acc (score v probe)) b :=
          Nat.lt_of_le_of_lt (Nat.le_of_not_lt h)
            (Nat.lt_of_le_of_ne (le_foldl_max score probe rest b) (Ne.symm h2))
        have : (score k probe == rest.foldl (fun acc v => max acc (score v probe)) b) = false := by
          rw [beq_eq_false_iff_ne]
          exact Nat.ne_of_lt hlt
        rw [this]

/-- If some key attains the maximum and the maximum is positive, `find?`
locates a first attaining key. -/
theorem find?_max_some (score : Score) (probe : Str) (keys : List Str) (M : Nat)
    (h : ∃ v ∈ keys, score v probe = M) :
    ∃ w, keys.find? (fun v => score v probe == M) = some w := by
  obtain ⟨v, hv, hfv⟩ := h
  have hsome : (keys.find? (fun v => score v probe == M)).isSome := by
    rw [List.find?_isSome]
    exact ⟨v, hv, by rw [hfv]; exact beq_self_eq_true _⟩
  exact Option.isSome_iff_exists.mp hsome

/-- C3: for every dictionary slot (with its positive hardcoded threshold) and
every tokenized input, base resolution space-joins the token surfaces into a
probe, scores every key of the union of the two dicts (generative keys
first, a full scan), keeps the key with the maximum score with ties resolved
first-seen-wins, and returns its canonical value (generative lookup before
nongenerative) when the maximum reaches the threshold, else `None` — i.e.
`_infer` coincides with the algorithm as the specification words it
(`inferClaim`). -/
theorem c3_base_resolution_algorithm (score : Score) (s : DictionarySlot)
    (text : List Token) (hthr : 0 < s.threshold) :
    s._infer score text = inferClaim score s text := by
  simp only [DictionarySlot._infer, inferDict, inferClaim, inferLoop_eq]
  set probe := joinTokens text with hprobe
  set keys := dictKeys s.gen_dict ++ dictKeys s.nongen_dict with hkeys
  set M := keys.foldl (fun acc v => max acc (score v probe)) 0 with hM
  by_cases hle : s.threshold ≤ M
  · rw [if_pos hle, if_pos hle]
    have hM0 : M ≠ 0 := by omega
    rw [if_neg hM0]
    obtain ⟨w, hw⟩ : ∃ w, keys.find? (fun v => score v probe == M) = some w := by
      rcases foldl_max_attained score probe keys 0 with h0 | hex
      · exact absurd h0 hM0
      · exact find?_max_some score probe keys M hex
    rw [hw]
    rfl
  · rw [if_neg hle, if_neg hle]

/-- Witness for C3 at a concrete slot, score and input. -/
theorem c3_witness :
    DictionarySlot._infer zeroScore c5slot [] = inferClaim zeroScore c5slot [] :=
  c3_base_resolution_algorithm zeroScore c5slot [] (by decide)

/-! ## Claim C5: exact-match resolution -/

/-- Counterexample to C5 as stated: under a conforming partial-similarity
matcher (one string containing the other scores 100), the probe "b" is
exactly the vocabulary key "b", whose canonical value is "2" — but the
earlier key "ab" also scores 100 against the probe, so the first-seen-wins
scan returns "1", not the equal key's canonical value. -/
theorem c5_counterexample :
    DictionarySlot._infer substrScore c5slot [Token.mk ['b']] = some ['1'] ∧
    c5slot._normal_value ['b'] = ['2'] ∧ (['1'] : Str) ≠ ['2'] :=
  ⟨rfl, rfl, by decide⟩

/-- C5 amended: when the probe equals a vocabulary key, that key scores 100
and (all scores being at most 100 and the threshold at most 100) resolution
returns a non-null value: the canonical value of the FIRST key attaining
score 100 in the generative-then-nongenerative scan — which is the equal
key's canonical value whenever no earlier key also scores 100. -/
theorem c5_exact_match_amended (score : Score) (s : DictionarySlot)
    (text : List Token) (k : Str)
    (hk : k ∈ dictKeys s.gen_dict ++ dictKeys s.nongen_dict)
    (hrefl : score k (joinTokens text) = 100)
    (hbound : ∀ v ∈ dictKeys s.gen_dict ++ dictKeys s.nongen_dict,
      score v (joinTokens text) ≤ 100)
    (hthr100 : s.threshold ≤ 100) :
    ∃ w, (dictKeys s.gen_dict ++ dictKeys s.nongen_dict).find?
        (fun v => score v (joinTokens text) == 100) = some w ∧
      s._infer score text = some (s._normal_value w) := by
  have hM : (dictKeys s.gen_dict ++ dictKeys s.nongen_dict).foldl
      (fun acc v => max acc (score v (joinTokens text))) 0 = 100 := by
    apply Nat.le_antisymm
    · exact foldl_max_le score (joinTokens text) 100 _ 0 hbound (Nat.zero_le _)
    · have h := foldl_max_ge score (joinTokens text)
        (dictKeys s.gen_dict ++ dictKeys s.nongen_dict) 0 k hk
      omega
  obtain ⟨w, hw⟩ := find?_max_some score (joinTokens text) _ 100 ⟨k, hk, hrefl⟩
  refine ⟨w, hw, ?_⟩
  simp only [DictionarySlot._infer, inferDict, inferLoop_eq, hM]
  rw [if_pos hthr100, if_neg (by omega : (100 : Nat) ≠ 0), hw]
  rfl

/-- Witness for the amended C5: the slot with single key "b" resolves the
probe "b" to that key's canonical value. -/
theorem c5_amended_witness :
    ∃ w, (dictKeys c5wslot.gen_dict ++ dictKeys c5wslot.nongen_dict).find?
        (fun v => substrScore v (joinTokens [Token.mk ['b']]) == 100) = some w ∧
      DictionarySlot._infer substrScore c5wslot [Token.mk ['b']] =
        some (c5wslot._normal_value w) :=
  c5_exact_match_amended substrScore c5wslot [Token.mk ['b']] ['b']
    (by decide) (by decide) (by decide) (by decide)

/-! ## Claim C8: empty input and empty vocabulary -/

/-- C8: (1) for every dictionary slot, resolving the empty token sequence
returns null — the probe is the empty string, and the fuzzy matcher scores
every key against an empty probe below the threshold (the matcher returns 0
when either argument is empty); (2) for every dictionary slot with an empty
vocabulary, resolution of any input returns null.  `_infer` is a total
function into `Option`, so no exception is possible on either path. -/
theorem c8_empty_cases :
    (∀ (score : Score) (s : DictionarySlot), 0 < s.threshold →
      (∀ v ∈ dictKeys s.gen_dict ++ dictKeys s.nongen_dict, score v [] < s.threshold) →
      s._infer score ([] : List Token) = none) ∧
    (∀ (score : Score) (s : DictionarySlot) (text : List Token), 0 < s.threshold →
      s.gen_dict = [] → s.nongen_dict = [] → s._infer score text = none) := by
  constructor
  · intro score s hthr hsc
    have hjoin : joinTokens ([] : List Token) = [] := rfl
    simp only [DictionarySlot._infer, inferDict, inferLoop_eq, hjoin]
    have hM : (dictKeys s.gen_dict ++ dictKeys s.nongen_dict).foldl
        (fun acc v => max acc (score v [])) 0 ≤ s.threshold - 1 := by
      apply foldl_max_le score [] (s.threshold - 1)
      · intro v hv
        have := hsc v hv
        omega
      · omega
    rw [if_neg (by omega)]
  · intro score s text hthr hg hng
    simp only [DictionarySlot._infer, inferDict, hg, hng, dictKeys, List.map_nil,
      List.nil_append, inferLoop]
    rw [if_neg (by omega)]

/-- Witness for C8: both conjuncts at a concrete slot. -/
theorem c8_witness :
    DictionarySlot._infer substrScore c5slot ([] : List Token) = none ∧
    DictionarySlot._infer substrScore
      { id := [], ask_sentence := [], gen_dict := [], nongen_dict := [] }
      [Token.mk ['h']] = none :=
  ⟨c8_empty_cases.1 substrScore c5slot (by decide) (by decide),
   c8_empty_cases.2 substrScore _ [Token.mk ['h']] (by decide) rfl rfl⟩

/-! ## Claim C1: unattached classifier slot -/

/-- Counterexample to C1 as stated: a classifier slot with no model, invoked
through the single-slot-focus entry point, does not fail with the no-model
error — the method inherited from `DictionarySlot` runs dictionary fuzzy
resolution and silently returns the null (no-match) result. -/
theorem c1_counterexample :
    c1slot.model = none ∧
    ClassifierSlot.infer_from_single_slot zeroScore c1slot [Token.mk ['h']] =
      .ok none :=
  ⟨rfl, rfl⟩

/-- C1 amended: with no model attached, the compositional-request entry point
(and the batch entry point) fail with the no-model error regardless of the
input, while the single-slot-focus entry point silently performs the
inherited dictionary resolution (it can only return `.ok`). -/
theorem c1_no_model_amended (c : ClassifierSlot) (score : Score)
    (text : List Token) (texts : List (List Token)) (h : c.model = none) :
    c.infer_from_compositional_request text = .error .noModelError ∧
    c.infer_from_compositional_batch texts = .error .noModelError ∧
    c.infer_from_single_slot score text = .ok (c.toDictionarySlot._infer score text) := by
  refine ⟨?_, ?_, rfl⟩
  · rw [ClassifierSlot.infer_from_compositional_request, h]
  · rw [ClassifierSlot.infer_from_compositional_batch, h]

/-- Witness for the amended C1 at the concrete unattached classifier slot. -/
theorem c1_amended_witness :
    ClassifierSlot.infer_from_compositional_request c1slot [] = .error .noModelError ∧
    ClassifierSlot.infer_from_compositional_batch c1slot [] = .error .noModelError ∧
    ClassifierSlot.infer_from_single_slot zeroScore c1slot [] =
      .ok (DictionarySlot._infer zeroScore c1slot.toDictionarySlot []) :=
  c1_no_model_amended c1slot zeroScore [] [] rfl

/-! ## Claim C6: compositional resolution -/

theorem inferChildrenComp_eq (children : List ChildSlot) (text : List Token)
    (h : ∀ c ∈ children, ∃ r, c.infer_from_compositional_request text = .ok r) :
    inferChildrenComp children text = .ok (firstChildComp children text) := by
  induction children with
  | nil => rfl
  | cons c rest ih =>
    obtain ⟨r, hr⟩ := h c (List.mem_cons_self _ _)
    have hrest := ih (fun d hd => h d (List.mem_cons_of_mem _ hd))
    rw [inferChildrenComp, firstChildComp, List.findSome?_cons, hr]
    cases r with
    | some v => rfl
    | none =>
      rw [firstChildComp] at hrest
      simpa using hrest

theorem inferChildrenSingle_eq (children : List ChildSlot) (text : List Token)
    (h : ∀ c ∈ children, ∃ r, c.infer_from_single_slot text = .ok r) :
    inferChildrenSingle children text = .ok (firstChildSingle children text) := by
  induction children with
  | nil => rfl
  | cons c rest ih =>
    obtain ⟨r, hr⟩ := h c (List.mem_cons_self _ _)
    have hrest := ih (fun d hd => h d (List.mem_cons_of_mem _ hd))
    rw [inferChildrenSingle, firstChildSingle, List.findSome?_cons, hr]
    cases r with
    | some v => rfl
    | none =>
      rw [firstChildSingle] at hrest
      simpa using hrest

theorem firstChildComp_none_iff (children : List ChildSlot) (text : List Token)
    (h : ∀ c ∈ children, ∃ r, c.infer_from_compositional_request text = .ok r) :
    firstChildComp children text = none ↔
      ∀ c ∈ children, c.infer_from_compositional_request text = .ok none := by
  rw [firstChildComp, List.findSome?_eq_none_iff]
  constructor
  · intro hall c hc
    obtain ⟨r, hr⟩ := h c hc
    have := hall c hc
    rw [hr] at this
    cases r with
    | some v => exact absurd this (by simp)
    | none => rw [hr]
  · intro hall c hc
    rw [hall c hc]

/-- C6: over children whose resolution does not raise, compositional
resolution (through either entry point) iterates the children in configured
order and returns the first non-null child resolution; it returns null iff
every child resolves to null.  In particular two children matching the same
input yield the first child's result. -/
theorem c6_first_non_null (children : List ChildSlot) (text : List Token)
    (h : ∀ c ∈ children, childOk c text) :
    inferChildrenComp children text = .ok (firstChildComp children text) ∧
    inferChildrenSingle children text = .ok (firstChildSingle children text) ∧
    (inferChildrenComp children text = .ok none ↔
      ∀ c ∈ children, c.infer_from_compositional_request text = .ok none) := by
  have hc := fun c hc => (h c hc).1
  have hs := fun c hc => (h c hc).2
  refine ⟨inferChildrenComp_eq children text hc, inferChildrenSingle_eq children text hs, ?_⟩
  rw [inferChildrenComp_eq children text hc]
  constructor
  · intro heq
    have : firstChildComp children text = none := by
      injection heq
    exact (firstChildComp_none_iff children text hc).mp this
  · intro hall
    rw [(firstChildComp_none_iff children text hc).mpr hall]

/-- Witness for C6: with both children matching, the composite returns the
index-0 child's result through both entry points. -/
theorem c6_witness :
    inferChildrenComp [childA, childB] [] = .ok (some ['a']) ∧
    inferChildrenSingle [childA, childB] [] = .ok (some ['a']) := by
  have h : ∀ c ∈ [childA, childB], childOk c [] := by
    intro c hc
    rcases List.mem_cons.mp hc with rfl | hc
    · exact ⟨⟨some ['a'], rfl⟩, ⟨some ['a'], rfl⟩⟩
    · rcases List.mem_cons.mp hc with rfl | hc
      · exact ⟨⟨some ['b'], rfl⟩, ⟨some ['b'], rfl⟩⟩
      · cases hc
  obtain ⟨h1, h2, _⟩ := c6_first_non_null [childA, childB] [] h
  exact ⟨by rw [h1]; rfl, by rw [h2]; rfl⟩

/-! ## Claim C2: forward reference in a compositional header -/

/-- C2 (the loader contradicts the constructor's intent): loading a schema
whose compositional header names the child id "missing" — defined by no
earlier block — SUCCEEDS and silently produces a composite slot with an empty
child list, because `read_slots_from_tsv` drops the header's extra pieces
when it calls the constructor with exactly six positional arguments; yet the
constructor logic itself (`CompositionalSlot.__init__`), handed that child
id, fails with `KeyError` exactly as the claim demands. -/
theorem c2_forward_reference :
    (read_slots_from_tsv feedOne c2rows).map
        (fun l => l.map (fun s => (s.cls, s.children.length))) =
      .ok [(SlotClass.CompositionalSlot, 0)] ∧
    compositionalInit [] [("missing".data)] = .error (.keyError ("missing".data)) :=
  ⟨rfl, rfl⟩

/-! ## Claim C9: trailing unterminated block -/

/-- Counterexample to C9 as stated: the schema `c9rows` consists of a single
unterminated block whose header token ".DictionarySlot" yields the empty
slot id; Python's truthiness test `if slot_name:` is falsy on the empty
string, so the trailing block is NOT finalized (the loader returns no slot),
whereas the same block terminated by a blank row does construct a slot. -/
theorem c9_counterexample :
    read_slots_from_tsv feedOne c9rows = .ok [] ∧
    (read_slots_from_tsv feedOne (c9rows ++ [[]])).map List.length = .ok 1 :=
  ⟨rfl, rfl⟩

theorem exbind_ok {α β : Type} (a : α) (f : α → Except Err β) :
    (Except.ok a >>= f) = f a := rfl

theorem exbind_error {α β : Type} (e : Err) (f : α → Except Err β) :
    ((Except.error e : Except Err α) >>= f) = .error e := rfl

theorem exmap_ok {α β : Type} (f : α → β) (a : α) :
    (Except.ok a : Except Err α).map f = .ok (f a) := rfl

theorem exmap_error {α β : Type} (f : α → β) (e : Err) :
    (Except.error e : Except Err α).map f = .error e := rfl

/-- C9 amended: a trailing unterminated block IS finalized at end-of-input
exactly as if a blank row had been present — PROVIDED the block's slot id is
a nonempty string (`if slot_name:` truthiness): appending a terminating blank
row to such a schema does not change the loader's result. -/
theorem c9_trailing_flush_amended (feed : Str → List Token) (rows : List (List Str))
    (st : LoaderState) (n : Str)
    (h1 : rows.foldlM (rowStep feed) initState = .ok st)
    (h2 : st.slot_name = some n) (h3 : n ≠ []) :
    read_slots_from_tsv feed (rows ++ [[]]) = read_slots_from_tsv feed rows := by
  simp only [read_slots_from_tsv]
  rw [List.foldlM_append, h1, exbind_ok, List.foldlM_cons]
  have hrow : rowStep feed st [] = (constructSlot st).map (fun slot =>
      { st with result_slots := st.result_slots ++ [slot], slot_name := none,
                generative_slot_values := [], nongenerative_slot_values := [] }) := by
    simp [rowStep, h2]
  rw [hrow, exbind_ok, h2]
  cases hc : constructSlot st with
  | ok slot =>
    rw [exmap_ok, exbind_ok, List.foldlM_nil]
    simp only [pure_bind]
    simp [h3]
    rfl
  | error e =>
    rw [exmap_error]
    simp only [exbind_error]
    rw [if_pos h3]

/-- Witness for the amended C9: a concrete unterminated one-block schema
(slot id "s") loads identically with and without the terminating blank
row. -/
theorem c9_amended_witness :
    read_slots_from_tsv feedOne (c9wrows ++ [[]]) = read_slots_from_tsv feedOne c9wrows :=
  c9_trailing_flush_amended feedOne c9wrows
    { slot_name := some ['s'], slot_class := ("DictionarySlot".data)
      header_args := [], info_question := ['q']
      generative_slot_values := [(['A'], ['A'])], nongenerative_slot_values := []
      normal_names_order := [['A']], result_slots := [] }
    ['s'] rfl rfl (by decide)

/-! ## Claim C4: duplicate surface forms across the two dictionaries -/

/-- Counterexample to C4 as stated: `c4rows` loads successfully, and its one
slot carries the surface form "A" as a key of BOTH dictionaries — the value
row put the canonical name "A" into the generative dict and the nongenerative
synonym "A" into the nongenerative dict, and the per-row assert does not fire
because the generative synonym cell is empty. -/
theorem c4_counterexample :
    (read_slots_from_tsv feedOne c4rows).map
        (fun l => l.map (fun s => (dictKeys s.gen_dict, dictKeys s.nongen_dict))) =
      .ok [([['A']], [['A']])] :=
  rfl

theorem splitPred_ne_nil (p : Char → Bool) : ∀ s : Str, splitPred p s ≠ [] := by
  intro s
  cases s with
  | nil => simp [splitPred]
  | cons c rest =>
    rw [splitPred]
    cases hpc : p c with
    | true => simp
    | false =>
      simp only [Bool.false_eq_true, if_false]
      cases hs : splitPred p rest with
      | nil => simp
      | cons g gs => simp

theorem any_contains_self : ∀ l : List Str, l ≠ [] →
    l.any (fun s => l.contains s) = true := by
  intro l hl
  cases l with
  | nil => exact absurd rfl hl
  | cons v rest =>
    rw [List.any_cons]
    have : (v :: rest).contains v = true := by
      simp [List.contains_cons]
    rw [this]
    rfl

/-- The per-row assert: within one value row whose generative and
nongenerative synonym cells are both the same nonempty string, the two
synonym lists coincide and intersect, so processing the row raises
`AssertionError`. -/
theorem valueRow_same_syns_rejected (feed : Str → List Token) (st : LoaderState)
    (n x : Str) (hx : x ≠ []) :
    valueRow feed st n x x = .error .assertionError := by
  rw [valueRow]
  rw [if_pos hx]
  have hsplit : splitSyns x ≠ [] := splitPred_ne_nil _ _
  rw [if_pos ⟨hsplit, hsplit, any_contains_self _ hsplit⟩]

/-- A mid-block value row `[n, x, x]` (same nonempty synonym string in both
cells) makes the row loop fail with `AssertionError`. -/
theorem rowStep_same_syns_rejected (feed : Str → List Token) (st : LoaderState)
    (m : Str) (n x : Str) (hst : st.slot_name = some m) (hx : x ≠ []) :
    rowStep feed st [n, x, x] = .error .assertionError := by
  rw [rowStep, hst]
  have hfl : ([n, x, x] : List Str).flatten ≠ [] := by
    intro hc
    rw [List.flatten_cons, List.flatten_cons, List.flatten_cons, List.flatten_nil,
      List.append_nil] at hc
    exact hx (List.append_eq_nil.mp ((List.append_eq_nil.mp hc).2)).1
  rw [if_neg hfl]
  exact valueRow_same_syns_rejected feed st n x hx

/-- A failing row aborts the whole load: if the rows before it process fine
and the row itself raises, `read_slots_from_tsv` raises that error. -/
theorem read_slots_error_at_row (feed : Str → List Token) (rows1 : List (List Str))
    (row : List Str) (rows2 : List (List Str)) (st : LoaderState) (e : Err)
    (h1 : rows1.foldlM (rowStep feed) initState = .ok st)
    (h2 : rowStep feed st row = .error e) :
    read_slots_from_tsv feed (rows1 ++ row :: rows2) = .error e := by
  simp only [read_slots_from_tsv]
  rw [List.foldlM_append, h1, exbind_ok, List.foldlM_cons, h2]
  rfl

/-- C4 amended: the loader rejects (with `AssertionError`, aborting the whole
load) a value row that lists the same nonempty synonym string in both its
generative and nongenerative cells — the spec's concrete case `A, "x", "x"` —
but this per-row check is all the disjointness it enforces (the
counterexample shows a successfully-loading slot whose dictionaries share a
key). -/
theorem c4_same_row_duplicate_rejected :
    (∀ (feed : Str → List Token) (st : LoaderState) (m n x : Str),
      st.slot_name = some m → x ≠ [] →
      rowStep feed st [n, x, x] = .error .assertionError) ∧
    (∀ (feed : Str → List Token) (rows1 : List (List Str)) (row : List Str)
        (rows2 : List (List Str)) (st : LoaderState) (e : Err),
      rows1.foldlM (rowStep feed) initState = .ok st →
      rowStep feed st row = .error e →
      read_slots_from_tsv feed (rows1 ++ row :: rows2) = .error e) :=
  ⟨fun feed st m n x hst hx => rowStep_same_syns_rejected feed st m n x hst hx,
   fun feed rows1 row rows2 st e h1 h2 =>
     read_slots_error_at_row feed rows1 row rows2 st e h1 h2⟩

/-- Witness for the amended C4: loading a schema whose value row is
`A, "x", "x"` fails with `AssertionError`. -/
theorem c4_amended_witness :
    read_slots_from_tsv feedOne
      ([[("s.DictionarySlot".data), ("q".data)]] ++
        [("A".data), ("x".data), ("x".data)] :: []) = .error .assertionError :=
  c4_same_row_duplicate_rejected.2 feedOne [[("s.DictionarySlot".data), ("q".data)]]
    [("A".data), ("x".data), ("x".data)] [] _ .assertionError rfl
    (c4_same_row_duplicate_rejected.1 feedOne _ ['s'] ("A".data) ("x".data) rfl (by decide))

/-! ## Claim C7: missing classifier artifacts -/

/-- If any classifier slot in the list lacks its artifact file, the
attachment loop of `read_slots_serialized` raises (the artifact-missing
exception for some classifier's path — the first such encountered). -/
theorem attachModels_missing (ex : Str → Bool) (loadArtifact : Str → Model)
    (folder : Str) :
    ∀ (slots : List Slot) (s : Slot), s ∈ slots →
      s.cls = SlotClass.ClassifierSlot → ex (modelPath folder s.id) = false →
      ∃ p, attachModels ex loadArtifact folder slots = .error (.modelFileMissing p) := by
  intro slots
  induction slots with
  | nil => intro s hs; cases hs
  | cons t rest ih =>
    intro s hs hcls hex
    rcases List.mem_cons.mp hs with rfl | hs
    · refine ⟨modelPath folder s.id, ?_⟩
      rw [attachModels, if_pos hcls, if_neg (by rw [hex]; exact Bool.false_ne_true)]
    · by_cases htc : t.cls = SlotClass.ClassifierSlot
      · by_cases htex : ex (modelPath folder t.id) = true
        · obtain ⟨p, hp⟩ := ih s hs hcls hex
          refine ⟨p, ?_⟩
          rw [attachModels, if_pos htc, if_pos htex, Slot.load_model, if_pos htex,
            exbind_ok, hp]
          rfl
        · exact ⟨modelPath folder t.id, by rw [attachModels, if_pos htc, if_neg htex]⟩
      · obtain ⟨p, hp⟩ := ih s hs hcls hex
        refine ⟨p, ?_⟩
        rw [attachModels, if_neg htc, hp]
        rfl

/-- C7: (1) `read_slots_serialized` fails at load time — before any inference
— whenever the parsed schema contains a classifier slot with no artifact file
`<folder>/<id>.model`; (2) `load_model` itself fails on a nonexistent path;
and (3) the two failures carry distinct errors. -/
theorem c7_missing_artifact :
    (∀ (ex : Str → Bool) (loadArtifact : Str → Model) (feed : Str → List Token)
        (rows : List (List Str)) (folder : Str) (slots : List Slot) (s : Slot),
      read_slots_from_tsv feed rows = .ok slots → s ∈ slots →
      s.cls = SlotClass.ClassifierSlot → ex (modelPath folder s.id) = false →
      ∃ p, read_slots_serialized ex loadArtifact feed rows folder =
        .error (.modelFileMissing p)) ∧
    (∀ (ex : Str → Bool) (loadArtifact : Str → Model) (s : Slot) (p : Str),
      ex p = false →
      s.load_model ex loadArtifact p = .error (.modelPathMissing p)) ∧
    (∀ p q : Str, (Err.modelFileMissing p) ≠ (Err.modelPathMissing q)) := by
  refine ⟨?_, ?_, ?_⟩
  · intro ex loadArtifact feed rows folder slots s hread hs hcls hex
    obtain ⟨p, hp⟩ := attachModels_missing ex loadArtifact folder slots s hs hcls hex
    refine ⟨p, ?_⟩
    simp only [read_slots_serialized]
    rw [hread, exbind_ok, hp]
  · intro ex loadArtifact s p hex
    rw [Slot.load_model, if_neg (by rw [hex]; exact Bool.false_ne_true)]
  · intro p q h
    cases h

/-- Witness for C7: a schema with one classifier block, an empty filesystem:
loading with trained models fails with the artifact-missing error, and
`load_model` on the same slot fails with the distinct path-missing error. -/
theorem c7_witness :
    (∃ p, read_slots_serialized (fun _ => false) (fun _ _ => false) feedOne
        [[("c.ClassifierSlot".data), ("q".data)], [("Y".data)]] ("m".data) =
      .error (.modelFileMissing p)) ∧
    (Slot.load_model (fun _ => false) (fun _ _ => false)
        (Slot.mk ['c'] ['q'] [(['Y'], ['Y'])] [] [['Y']] 84
          SlotClass.ClassifierSlot (some ['Y']) none [])
        ("m/c.model".data) = .error (.modelPathMissing ("m/c.model".data))) :=
  ⟨c7_missing_artifact.1 (fun _ => false) (fun _ _ => false) feedOne
      [[("c.ClassifierSlot".data), ("q".data)], [("Y".data)]] ("m".data)
      [Slot.mk ['c'] ['q'] [(['Y'], ['Y'])] [] [['Y']] 84
        SlotClass.ClassifierSlot (some ['Y']) none []]
      (Slot.mk ['c'] ['q'] [(['Y'], ['Y'])] [] [['Y']] 84
        SlotClass.ClassifierSlot (some ['Y']) none [])
      rfl (List.mem_singleton.mpr rfl) rfl rfl,
   c7_missing_artifact.2.1 (fun _ => false) (fun _ _ => false)
      (Slot.mk ['c'] ['q'] [(['Y'], ['Y'])] [] [['Y']] 84
        SlotClass.ClassifierSlot (some ['Y']) none [])
      ("m/c.model".data) rfl⟩

/-! ## Claim C10: canonical values and resolution range -/

theorem lookupD_some (d : List (Str × Str)) (k u : Str) (h : lookupD d k = some u) :
    ∃ p ∈ d, p.2 = u := by
  rw [lookupD] at h
  cases hf : d.find? (fun p => p.1 == k) with
  | none => rw [hf] at h; cases h
  | some p =>
    rw [hf] at h
    injection h with h2
    exact ⟨p, List.mem_of_find?_eq_some hf, h2⟩

theorem lookupD_mem_keys (d : List (Str × Str)) (k : Str) (h : k ∈ dictKeys d) :
    ∃ u, lookupD d k = some u := by
  obtain ⟨p, hp, hpk⟩ := List.mem_map.mp h
  have hs : (d.find? (fun q => q.1 == k)).isSome :=
    List.find?_isSome.mpr ⟨p, hp, by rw [hpk]; exact beq_self_eq_true _⟩
  obtain ⟨q, hq⟩ := Option.isSome_iff_exists.mp hs
  exact ⟨q.2, by rw [lookupD, hq]; rfl⟩

/-- A key of either dict normalises to a stored value (the empty-string
fallback of `_normal_value` is unreachable for keys), which is a canonical
value whenever the dicts map onto `order`. -/
theorem normalValue_mem (gen nongen : List (Str × Str)) (order : List Str) (w : Str)
    (hg : dictValuesIn gen order) (hng : dictValuesIn nongen order)
    (hw : w ∈ dictKeys gen ++ dictKeys nongen) :
    normalValue gen nongen w ∈ order := by
  rw [normalValue]
  cases hl : lookupD gen w with
  | some u =>
    obtain ⟨p, hp, hpu⟩ := lookupD_some gen w u hl
    exact hpu ▸ hg p hp
  | none =>
    have hwn : w ∈ dictKeys nongen := by
      rcases List.mem_append.mp hw with h1 | h1
      · exfalso
        obtain ⟨u, hu⟩ := lookupD_mem_keys gen w h1
        rw [hl] at hu
        cases hu
      · exact h1
    obtain ⟨u, hu⟩ := lookupD_mem_keys nongen w hwn
    rw [hu]
    obtain ⟨p, hp, hpu⟩ := lookupD_some nongen w u hu
    simpa using hpu ▸ hng p hp

theorem dictInsert_values (d : List (Str × Str)) (order : List Str) (k v : Str)
    (hd : dictValuesIn d order) (hv : v ∈ order) :
    dictValuesIn (dictInsert d k v) order := by
  intro kv hkv
  rw [dictInsert] at hkv
  by_cases h : d.any (fun p => p.1 == k) = true
  · rw [if_pos h] at hkv
    obtain ⟨p, hp, hpe⟩ := List.mem_map.mp hkv
    by_cases h2 : (p.1 == k) = true
    · rw [if_pos h2] at hpe
      rw [← hpe]
      exact hv
    · rw [if_neg h2] at hpe
      rw [← hpe]
      exact hd p hp
  · rw [if_neg h] at hkv
    rcases List.mem_append.mp hkv with h1 | h1
    · exact hd kv h1
    · rw [List.mem_singleton] at h1
      rw [h1]
      exact hv

theorem foldl_dictInsert_values (order : List Str) (v : Str) (f : Str → Str)
    (hv : v ∈ order) :
    ∀ (syns : List Str) (d : List (Str × Str)), dictValuesIn d order →
      dictValuesIn (syns.foldl (fun d s => dictInsert d (f s) v) d) order
  | [], _, hd => hd
  | s :: rest, d, hd =>
    foldl_dictInsert_values order v f hv rest _
      (dictInsert_values d order (f s) v hd hv)

theorem dictValuesIn_append (d : List (Str × Str)) (order tail : List Str)
    (h : dictValuesIn d order) : dictValuesIn d (order ++ tail) :=
  fun kv hkv => List.mem_append_left tail (h kv hkv)

theorem initState_inv : LoaderInv initState :=
  ⟨fun _ => ⟨rfl, rfl⟩,
   fun kv hkv => absurd hkv (List.not_mem_nil kv),
   fun kv hkv => absurd hkv (List.not_mem_nil kv),
   fun s hs => absurd hs (List.not_mem_nil s)⟩

/-- Every slot the loader constructs is good: its dicts were accumulated with
values drawn from `normal_names_order`, and every constructor hardcodes
threshold 84. -/
theorem constructSlot_good (st : LoaderState) (slot : Slot)
    (hg : dictValuesIn st.generative_slot_values st.normal_names_order)
    (hng : dictValuesIn st.nongenerative_slot_values st.normal_names_order)
    (h : constructSlot st = .ok slot) : GoodSlot slot := by
  rw [constructSlot] at h
  cases hcn : classOfName st.slot_class with
  | none => rw [hcn] at h; cases h
  | some cls =>
    rw [hcn] at h
    cases cls with
    | ClassifierSlot =>
      cases hord : st.normal_names_order with
      | nil => rw [hord] at h; cases h
      | cons t rest =>
        rw [hord] at h
        cases h
        rw [hord] at hg hng
        exact ⟨hg, hng, rfl⟩
    | CompositionalSlot =>
      simp only [exmap_ok] at h
      cases h
      exact ⟨hg, hng, rfl⟩
    | DictionarySlot => cases h; exact ⟨hg, hng, rfl⟩
    | CurrencySlot => cases h; exact ⟨hg, hng, rfl⟩
    | TomitaSlot => cases h; exact ⟨hg, hng, rfl⟩
    | GeoSlot => cases h; exact ⟨hg, hng, rfl⟩

theorem ite_error_ok {β : Type} (c : Prop) [Decidable c] (e : Err) (b b' : β)
    (h : (if c then (Except.error e : Except Err β) else .ok b) = .ok b') : b = b' := by
  by_cases hc : c
  · rw [if_pos hc] at h
    cases h
  · rw [if_neg hc] at h
    injection h

/-- A value row keeps the loader invariant. -/
theorem valueRow_inv (feed : Str → List Token) (st st' : LoaderState) (m n g ng : Str)
    (hsn : st.slot_name = some m) (hinv : LoaderInv st)
    (h : valueRow feed st n g ng = .ok st') : LoaderInv st' := by
  have hst := ite_error_ok _ Err.assertionError _ st' h
  rw [← hst]
  refine ⟨?_, ?_, ?_, hinv.2.2.2⟩
  · intro hh
    have h2 : st.slot_name = none := hh
    rw [hsn] at h2
    cases h2
  · apply foldl_dictInsert_values
    · exact List.mem_append_right _ (List.mem_singleton.mpr rfl)
    · apply dictInsert_values
      · exact dictValuesIn_append _ _ _ hinv.2.1
      · exact List.mem_append_right _ (List.mem_singleton.mpr rfl)
  · apply foldl_dictInsert_values
    · exact List.mem_append_right _ (List.mem_singleton.mpr rfl)
    · exact dictValuesIn_append _ _ _ hinv.2.2.1

/-- One loop iteration keeps the loader invariant. -/
theorem rowStep_inv (feed : Str → List Token) (st st' : LoaderState) (row : List Str)
    (hinv : LoaderInv st) (h : rowStep feed st row = .ok st') : LoaderInv st' := by
  rw [rowStep.eq_def] at h
  cases hsn : st.slot_name with
  | none =>
    rw [hsn] at h
    simp only [] at h
    obtain ⟨hge, hgn⟩ := hinv.1 hsn
    repeat' split at h
    any_goals cases h
    all_goals
      refine ⟨fun hh => Option.noConfusion hh, ?_, ?_, hinv.2.2.2⟩
    · intro kv hkv
      have h2 : kv ∈ st.generative_slot_values := hkv
      rw [hge] at h2
      cases h2
    · intro kv hkv
      have h2 : kv ∈ st.nongenerative_slot_values := hkv
      rw [hgn] at h2
      cases h2
  | some m =>
    rw [hsn] at h
    simp only [] at h
    by_cases hbl : row.flatten = []
    · rw [if_pos hbl] at h
      cases hc : constructSlot st with
      | error e => rw [hc, exmap_error] at h; cases h
      | ok slot =>
        rw [hc, exmap_ok] at h
        cases h
        refine ⟨fun _ => ⟨rfl, rfl⟩, ?_, ?_, ?_⟩
        · intro kv hkv
          cases hkv
        · intro kv hkv
          cases hkv
        · intro s hs
          have hs2 : s ∈ st.result_slots ++ [slot] := hs
          rcases List.mem_append.mp hs2 with hold | hnew
          · exact hinv.2.2.2 s hold
          · rw [List.mem_singleton] at hnew
            rw [hnew]
            exact constructSlot_good st slot hinv.2.1 hinv.2.2.1 hc
    · rw [if_neg hbl] at h
      match row, h with
      | [n], h => exact valueRow_inv feed st st' m n [] [] hsn hinv h
      | [n, g], h => exact valueRow_inv feed st st' m n g [] hsn hinv h
      | [n, g, ng], h => exact valueRow_inv feed st st' m n g ng hsn hinv h
      | [], h => exact absurd h (by simp)
      | n :: g :: ng :: x :: rest, h => exact absurd h (by simp)

/-- The whole row loop keeps the loader invariant. -/
theorem foldlM_inv (feed : Str → List Token) :
    ∀ (rows : List (List Str)) (st st' : LoaderState),
      LoaderInv st → rows.foldlM (rowStep feed) st = .ok st' → LoaderInv st' := by
  intro rows
  induction rows with
  | nil =>
    intro st st' h heq
    rw [List.foldlM_nil] at heq
    cases heq
    exact h
  | cons row rest ih =>
    intro st st' h heq
    rw [List.foldlM_cons] at heq
    cases hstep : rowStep feed st row with
    | error e =>
      rw [hstep, exbind_error] at heq
      cases heq
    | ok st2 =>
      rw [hstep, exbind_ok] at heq
      exact ih st2 st' (rowStep_inv feed st st2 row h hstep) heq

/-- Every slot a successful load returns is good. -/
theorem read_slots_good (feed : Str → List Token) (rows : List (List Str))
    (slots : List Slot) (s : Slot)
    (h : read_slots_from_tsv feed rows = .ok slots) (hs : s ∈ slots) : GoodSlot s := by
  simp only [read_slots_from_tsv] at h
  cases hfold : rows.foldlM (rowStep feed) initState with
  | error e =>
    rw [hfold, exbind_error] at h
    cases h
  | ok st =>
    rw [hfold, exbind_ok] at h
    have hinv := foldlM_inv feed rows initState st initState_inv hfold
    cases hsn : st.slot_name with
    | none =>
      rw [hsn] at h
      cases h
      exact hinv.2.2.2 s hs
    | some n =>
      rw [hsn] at h
      simp only [] at h
      by_cases hne : n ≠ []
      · rw [if_pos hne] at h
        cases hc : constructSlot st with
        | error e =>
          rw [hc, exbind_error] at h
          cases h
        | ok slot =>
          rw [hc, exbind_ok] at h
          cases h
          have hs2 : s ∈ st.result_slots ++ [slot] := hs
          rcases List.mem_append.mp hs2 with hold | hnew
          · exact hinv.2.2.2 s hold
          · rw [List.mem_singleton] at hnew
            rw [hnew]
            exact constructSlot_good st slot hinv.2.1 hinv.2.2.1 hc
      · rw [if_neg hne] at h
        cases h
        exact hinv.2.2.2 s hs

/-- Base resolution on a good slot can only return canonical values. -/
theorem slot_infer_canonical (score : Score) (s : Slot) (text : List Token) (v : Str)
    (hgood : GoodSlot s) (h : s._infer score text = some v) : v ∈ s.values_order := by
  obtain ⟨hg, hng, hthr⟩ := hgood
  simp only [Slot._infer, inferDict, inferLoop_eq] at h
  by_cases hle : s.threshold ≤ (dictKeys s.gen_dict ++ dictKeys s.nongen_dict).foldl
      (fun acc v => max acc (score v (joinTokens text))) 0
  · rw [if_pos hle] at h
    have hM0 : (dictKeys s.gen_dict ++ dictKeys s.nongen_dict).foldl
        (fun acc v => max acc (score v (joinTokens text))) 0 ≠ 0 := by
      rw [hthr] at hle
      omega
    rw [if_neg hM0] at h
    cases hf : (dictKeys s.gen_dict ++ dictKeys s.nongen_dict).find?
        (fun w => score w (joinTokens text) ==
          (dictKeys s.gen_dict ++ dictKeys s.nongen_dict).foldl
            (fun acc v => max acc (score v (joinTokens text))) 0) with
    | none =>
      exfalso
      rcases foldl_max_attained score (joinTokens text)
          (dictKeys s.gen_dict ++ dictKeys s.nongen_dict) 0 with h0 | hex
      · exact hM0 h0
      · obtain ⟨w, hw⟩ := find?_max_some score (joinTokens text) _ _ hex
        rw [hf] at hw
        cases hw
    | some w =>
      rw [hf] at h
      injection h with hv
      rw [← hv]
      exact normalValue_mem s.gen_dict s.nongen_dict s.values_order w hg hng
        (List.mem_of_find?_eq_some hf)
  · rw [if_neg hle] at h
    cases h

/-- Counterexample to C10 as stated: loading `c10rows` succeeds and produces
`c10slot`, whose canonical value "A" (an element of `values_order`) is a key
of `generative_dict` mapping to "B", not to itself — the second row's
generative synonym "A" overwrote the first row's self-mapping. -/
theorem c10_counterexample :
    read_slots_from_tsv feedOne c10rows = .ok [c10slot] ∧
    (['A'] : Str) ∈ c10slot.values_order ∧
    lookupD c10slot.gen_dict ['A'] = some ['B'] ∧ (['B'] : Str) ≠ ['A'] :=
  ⟨rfl, by decide, rfl, by decide⟩

/-- C10 amended: every value STORED in either dictionary of a loader-produced
slot is an element of `values_order` (though a canonical value's key need not
map to itself, as a later row's synonym may remap it); consequently, whenever
base dictionary resolution returns non-null on such a slot, the returned
value is a canonical value — never an arbitrary surface form and never the
empty-string fallback of the normalisation lookup. -/
theorem c10_canonical_values :
    (∀ (feed : Str → List Token) (rows : List (List Str)) (slots : List Slot) (s : Slot),
      read_slots_from_tsv feed rows = .ok slots → s ∈ slots → GoodSlot s) ∧
    (∀ (score : Score) (s : Slot) (text : List Token) (v : Str),
      GoodSlot s → s._infer score text = some v → v ∈ s.values_order) :=
  ⟨fun feed rows slots s h hs => read_slots_good feed rows slots s h hs,
   fun score s text v hg h => slot_infer_canonical score s text v hg h⟩

/-- Witness for the amended C10: the loaded `c10slot` is good, and resolving
the probe "A" on it returns the canonical value "B" (an element of
`values_order`). -/
theorem c10_witness :
    GoodSlot c10slot ∧ (['B'] : Str) ∈ c10slot.values_order :=
  have hgood : GoodSlot c10slot :=
    c10_canonical_values.1 feedOne c10rows [c10slot] c10slot rfl
      (List.mem_singleton.mpr rfl)
  ⟨hgood, c10_canonical_values.2 substrScore c10slot [Token.mk ['A']] ['B'] hgood rfl⟩

end Sber
